import Mathlib

/-!
Verification development for the HyperLiquid listing-alerts monitor.

This file gives a shallow embedding of the change-detection and
state-reconciliation logic of the two source files
`src/token_details_monitor.py` (class `TokenDetailsMonitor`) and
`src/hyperliquid_monitor.py` (class `HyperLiquidMonitor`), and settles the
spec claims about them.

Modelling conventions:
* JSON scalars loaded by `json.load` become the inductive `Value`; Python
  `None` (JSON `null`) is `Value.vnull`.
* A parsed JSON object (Python dict) becomes an association list
  `Record = List (String × Value)`; genuine dicts have pairwise distinct
  keys, which appears as `Nodup` hypotheses where the count of emitted
  events matters.
* The mutable dictionaries `previous_states` and `price_transition_states`
  become total functions (`price_transition_states.get(filename, False)`
  defaults to `false`, so a total `String → Bool` is the faithful model).
* External effects (Discord webhooks, the HTTP fetch, `os.listdir`) are
  abstracted: a cycle receives the parsed directory contents / snapshot as
  data, the network fetch becomes an oracle `String → Option Record`
  (`none` = the `except` branch of `fetch_token_details` returning `None`),
  and each would-be webhook call is recorded in the step's result.
-/

namespace HLSpec

/-- JSON scalar values as produced by `json.load`: Python `None` (JSON
`null`), numbers, strings and booleans.  `vnull` doubles as the Python
`None` the source code stores in `changes` tuples for added/removed
fields. -/
inductive Value : Type
  | vnull : Value
  | vnum : Int → Value
  | vstr : String → Value
  | vbool : Bool → Value
  deriving DecidableEq, Repr

/-- A parsed JSON object (Python dict): association list from field name to
value. -/
abbrev Record : Type := List (String × Value)

/-- Dictionary lookup: value of the first entry with the given key (Python
dicts have unique keys, so first = only). -/
def alookup : Record → String → Option Value
  | [], _ => none
  | kv :: rest, k => if kv.1 = k then some kv.2 else alookup rest k

/-- The ignore set fixed in `TokenDetailsMonitor.__init__` (line 12):
`{'markPx', 'prevDayPx'}`; `midPx` is deliberately not ignored. -/
def ignored_fields : List String := ["markPx", "prevDayPx"]

/-- The Field Filter: the dict comprehension
`{k: v for k, v in data.items() if k not in self.ignored_fields}`
(lines 178-179 and 33-34 of `token_details_monitor.py`). -/
def clean (r : Record) : Record :=
  r.filter fun kv => decide (kv.1 ∉ ignored_fields)

/-- The trading-status signal `current_data.get('midPx') is not None`
(line 166 of `token_details_monitor.py`). -/
def is_trading (current_data : Record) : Bool :=
  match alookup current_data "midPx" with
  | some Value.vnull => false
  | some _ => true
  | none => false

/-- One entry of the `changes` dict of `check_for_changes`:
`changes[field] = (old, new)`.  The source reuses Python `None`
(`Value.vnull` here) both for the JSON value `null` and as the
absent-side marker of added (`(None, value)`, line 192) and removed
(`(old, None)`, line 199) fields, so added / changed / removed events
share one shape. -/
structure Change : Type where
  field : String
  old : Value
  new : Value
  deriving DecidableEq, Repr

/-- First pass of the Diff Engine (lines 188-194 of `check_for_changes`),
per entry of `cleaned_current.items()`: `midPx` is skipped when
`was_trading` (lines 189-190); a key absent from `previous_data` records
`(None, value)` (line 192); a key whose previous value differs records
`(old, value)` (line 194). -/
def diff_added_changed (previous_data : Record) (was_trading : Bool)
    (kv : String × Value) : Option Change :=
  if kv.1 = "midPx" ∧ was_trading = true then none
  else
    match alookup previous_data kv.1 with
    | none => some ⟨kv.1, Value.vnull, kv.2⟩
    | some old => if old = kv.2 then none else some ⟨kv.1, old, kv.2⟩

/-- Second pass of the Diff Engine (lines 197-199), per entry of
`previous_data`: keys absent from `cleaned_current` record `(old, None)` —
note this pass has no `midPx` exemption. -/
def diff_removed (cleaned_current : Record) (kv : String × Value) :
    Option Change :=
  match alookup cleaned_current kv.1 with
  | some _ => none
  | none => some ⟨kv.1, kv.2, Value.vnull⟩

/-- The Diff Engine: the `changes` dict built in lines 185-199 of
`check_for_changes`, in insertion order (first pass entries, then removal
entries). -/
def diff_changes (previous_data cleaned_current : Record) (was_trading : Bool) :
    List Change :=
  cleaned_current.filterMap (diff_added_changed previous_data was_trading)
  ++ previous_data.filterMap (diff_removed cleaned_current)

/-- The mutable state of a `TokenDetailsMonitor`: `self.previous_states`
(filename ↦ cleaned record) and `self.price_transition_states`
(filename ↦ bool, read with default `False` via `.get(filename, False)`,
hence a total function). -/
structure TDState : Type where
  previous_states : String → Option Record
  price_transition_states : String → Bool

/-- The externally visible outcome of processing one file in
`check_for_changes`: whether the new-token alert fired (line 162), the
value carried by the now-tradeable alert if it fired (line 172, carrying
`current_data.get('midPx')`), and the `changes` dict (a change alert is
sent iff `changes` is nonempty, line 202). -/
structure StepResult : Type where
  new_token_alert : Bool
  transition_alert : Option Value
  changes : List Change
  deriving DecidableEq, Repr

/-- The body of the per-file loop of `check_for_changes` (lines 155-210)
for one successfully parsed file: new-file detection (line 159), the
trading-status transition check (lines 165-172), the flag update
`self.price_transition_states[filename] = is_trading` (line 175), the
diff of the cleaned current record against the stored baseline
(default `{}`, line 182), and the state update
`self.previous_states[filename] = cleaned_current` (line 210). -/
def process_file (s : TDState) (filename : String) (current_data : Record) :
    TDState × StepResult :=
  let is_new := (s.previous_states filename).isNone
  let was_trading := s.price_transition_states filename
  let is_tr := is_trading current_data
  let tr_alert : Option Value :=
    if was_trading = false ∧ is_tr = true then
      some ((alookup current_data "midPx").getD Value.vnull)
    else none
  let cleaned_current := clean current_data
  let previous_data := (s.previous_states filename).getD []
  let chs := diff_changes previous_data cleaned_current was_trading
  (⟨Function.update s.previous_states filename (some cleaned_current),
    Function.update s.price_transition_states filename is_tr⟩,
   ⟨is_new, tr_alert, chs⟩)

/-- One full comparison cycle of `TokenDetailsMonitor.check_for_changes`:
the loop over the `.json` files of the monitored directory, given as the
list of (filename, parsed record) pairs that were successfully read.
Files absent from the directory are simply not visited.  Returns the
final state and, per visited file, its `StepResult`. -/
def check_for_changes :
    TDState → List (String × Record) → TDState × List (String × StepResult)
  | s, [] => (s, [])
  | s, fc :: rest =>
    let sr := process_file s fc.1 fc.2
    let srest := check_for_changes sr.1 rest
    (srest.1, (fc.1, sr.2) :: srest.2)

/-- One element of the `tokens` list of the spot-market snapshot in
`HyperLiquidMonitor.check_for_updates`: its `name` and its `tokenId`
(`none` models a missing or falsy `tokenId`, which line 99 treats as
absent). -/
structure Asset : Type where
  name : String
  tokenId : Option String
  deriving DecidableEq, Repr

/-- `HyperLiquidMonitor.check_for_updates` (lines 83-107) given a fetched
snapshot.  `fetch_token_details` is the oracle for the per-token detail
fetch: `none` is its exception branch returning `None` (lines 70-72).
Returns the new `known_pairs` (`current_pairs`, i.e. all asset names,
line 106) and the list of pair names for which `notify_new_pair` fired: a
pair not in `known_pairs` whose asset has a tokenId and whose detail
fetch succeeded (lines 99-103).  The body of the asset loop (lines 93-103)
is split out as `asset_alert`: a `notify_new_pair` call fires for the
asset's name exactly when the name is not in `known_pairs`, the asset has
a tokenId, and the detail fetch returns data. -/
def asset_alert (known_pairs : List String)
    (fetch_token_details : String → Option Record) (a : Asset) :
    Option String :=
  if a.name ∈ known_pairs then none
  else
    match a.tokenId with
    | some tid => (fetch_token_details tid).map fun _ => a.name
    | none => none

def check_for_updates (known_pairs : List String) (assets : List Asset)
    (fetch_token_details : String → Option Record) :
    List String × List String :=
  (assets.map Asset.name,
   assets.filterMap (asset_alert known_pairs fetch_token_details))

/-- A sequence of poll cycles of the pair monitor: each cycle supplies the
fetched snapshot and the detail-fetch oracle for that cycle.  Returns the
final `known_pairs` and the per-cycle alert lists. -/
def run_cycles :
    List String → List (List Asset × (String → Option Record)) →
    List String × List (List String)
  | known, [] => (known, [])
  | known, cyc :: rest =>
    let r := check_for_updates known cyc.1 cyc.2
    let rr := run_cycles r.1 rest
    (rr.1, r.2 :: rr.2)

/-! ### Dictionary lemmas -/

/-- A key that occurs in a record looks up to something. -/
theorem alookup_isSome_of_mem {l : Record} {kv : String × Value} (h : kv ∈ l) :
    (alookup l kv.1).isSome = true := by
  induction l with
  | nil => cases h
  | cons a rest ih =>
    rcases List.mem_cons.mp h with h1 | h2
    · subst h1; simp [alookup]
    · by_cases hk : a.1 = kv.1
      · simp [alookup, hk]
      · simp only [alookup, if_neg hk]; exact ih h2

/-- A successful lookup exhibits a member of the record. -/
theorem mem_of_alookup_some {l : Record} {k : String} {v : Value}
    (h : alookup l k = some v) : (k, v) ∈ l := by
  induction l with
  | nil => simp [alookup] at h
  | cons a rest ih =>
    by_cases hk : a.1 = k
    · simp only [alookup, if_pos hk] at h
      refine List.mem_cons.mpr (Or.inl ?_)
      obtain ⟨a1, a2⟩ := a
      injection h with h2
      rw [← hk, ← h2]
    · simp only [alookup, if_neg hk] at h
      exact List.mem_cons.mpr (Or.inr (ih h))

/-- A key whose lookup fails occurs nowhere in the record. -/
theorem key_ne_of_alookup_none {l : Record} {k : String}
    (h : alookup l k = none) {kv : String × Value} (hm : kv ∈ l) : kv.1 ≠ k := by
  intro he
  have hs := alookup_isSome_of_mem hm
  rw [he, h] at hs
  simp at hs

/-- In a record with pairwise distinct keys, a member's key looks up to
exactly that member's value. -/
theorem alookup_of_mem_nodup {l : Record} (hnd : (l.map Prod.fst).Nodup)
    {kv : String × Value} (h : kv ∈ l) : alookup l kv.1 = some kv.2 := by
  induction l with
  | nil => cases h
  | cons a rest ih =>
    rw [List.map_cons, List.nodup_cons] at hnd
    rcases List.mem_cons.mp h with h1 | h2
    · subst h1; simp [alookup]
    · have hk : a.1 ≠ kv.1 := by
        intro he
        exact hnd.1 (he ▸ List.mem_map.mpr ⟨kv, h2, rfl⟩)
      simp only [alookup, if_neg hk]
      exact ih hnd.2 h2

/-- A `filterMap` over a record with pairwise distinct keys collapses to a
singleton when exactly the entry with key `k` maps to `some`. -/
theorem filterMap_record_singleton {β : Type} {f : String × Value → Option β}
    {l : Record} (hnd : (l.map Prod.fst).Nodup) {k : String} {v : Value} {e : β}
    (hmem : (k, v) ∈ l) (hx : f (k, v) = some e)
    (hother : ∀ kv ∈ l, kv.1 ≠ k → f kv = none) : l.filterMap f = [e] := by
  induction l with
  | nil => cases hmem
  | cons a rest ih =>
    rw [List.map_cons, List.nodup_cons] at hnd
    rcases List.mem_cons.mp hmem with h1 | h2
    · subst h1
      rw [List.filterMap_cons_some hx]
      have hrest : rest.filterMap f = [] := by
        rw [List.filterMap_eq_nil_iff]
        intro kv hkv
        refine hother kv (List.mem_cons.mpr (Or.inr hkv)) ?_
        intro he
        exact hnd.1 (he ▸ List.mem_map.mpr ⟨kv, hkv, rfl⟩)
      rw [hrest]
    · have hak : a.1 ≠ k := by
        intro he
        exact hnd.1 (by
          have : (k : String) ∈ rest.map Prod.fst :=
            List.mem_map.mpr ⟨(k, v), h2, rfl⟩
          rw [he]; exact this)
      rw [List.filterMap_cons_none (hother a (List.mem_cons.mpr (Or.inl rfl)) hak)]
      exact ih hnd.2 h2 fun kv hkv => hother kv (List.mem_cons.mpr (Or.inr hkv))

/-! ### Field-filter lemmas -/

/-- Cleaning does not change the lookup of a non-ignored field. -/
theorem alookup_clean {r : Record} {k : String} (hk : k ∉ ignored_fields) :
    alookup (clean r) k = alookup r k := by
  induction r with
  | nil => rfl
  | cons a rest ih =>
    by_cases hi : a.1 ∈ ignored_fields
    · have hak : a.1 ≠ k := fun he => hk (he ▸ hi)
      have hcl : clean (a :: rest) = clean rest := by
        simp [clean, List.filter_cons, hi]
      rw [hcl, ih]
      simp [alookup, hak]
    · have hcl : clean (a :: rest) = a :: clean rest := by
        simp [clean, List.filter_cons, hi]
      rw [hcl]
      by_cases hak : a.1 = k
      · simp [alookup, hak]
      · simp only [alookup, if_neg hak]
        exact ih

/-- Every entry of a cleaned record has a non-ignored key. -/
theorem key_not_ignored_of_mem_clean {r : Record} {kv : String × Value}
    (h : kv ∈ clean r) : kv.1 ∉ ignored_fields := by
  have := List.of_mem_filter h
  simpa using this

/-- Cleaning preserves distinctness of keys. -/
theorem clean_keys_nodup {r : Record} (h : (r.map Prod.fst).Nodup) :
    ((clean r).map Prod.fst).Nodup :=
  ((List.filter_sublist r).map Prod.fst).nodup h

/-- The trading signal only reads `midPx`, which is not ignored, so cleaning
does not affect it. -/
theorem is_trading_clean (r : Record) : is_trading (clean r) = is_trading r := by
  unfold is_trading
  rw [alookup_clean (by decide)]

/-! ### Diff-engine lemmas -/

/-- Diffing a record with distinct keys against itself yields no changes. -/
theorem diff_changes_self {l : Record} (hnd : (l.map Prod.fst).Nodup)
    (w : Bool) : diff_changes l l w = [] := by
  unfold diff_changes
  rw [List.append_eq_nil]
  constructor
  · rw [List.filterMap_eq_nil_iff]
    intro kv hkv
    by_cases hmid : kv.1 = "midPx" ∧ w = true
    · simp [diff_added_changed, hmid]
    · simp [diff_added_changed, if_neg hmid, alookup_of_mem_nodup hnd hkv]
  · rw [List.filterMap_eq_nil_iff]
    intro kv hkv
    have hs := alookup_isSome_of_mem hkv
    cases hl : alookup l kv.1 with
    | none => rw [hl] at hs; simp at hs
    | some v => simp [diff_removed, hl]

/-- Diffing against an empty baseline with the flag down reports every field
of the current record as added, in order. -/
theorem diff_changes_nil_baseline (cur : Record) :
    diff_changes [] cur false =
      cur.map fun kv => ⟨kv.1, Value.vnull, kv.2⟩ := by
  unfold diff_changes
  rw [List.filterMap_nil, List.append_nil]
  induction cur with
  | nil => rfl
  | cons a rest ih =>
    rw [List.map_cons, ← ih]
    exact List.filterMap_cons_some (by simp [diff_added_changed, alookup])

/-- The trading signal is up exactly when `midPx` looks up to a non-null
value. -/
theorem is_trading_of_some {c : Record} {v : Value}
    (h : alookup c "midPx" = some v) (hv : v ≠ Value.vnull) :
    is_trading c = true := by
  unfold is_trading
  rw [h]
  cases v <;> simp_all

/-! ### Claim C1 -/

/-- Scenario for claim C1: one token file whose `midPx` toggles
null → "1" → null → "2" across three comparison cycles. -/
def c1_state0 : TDState :=
  ⟨fun f => if f = "t.json" then
      some [("name", Value.vstr "T"), ("midPx", Value.vnull)]
    else none,
   fun _ => false⟩

def c1_cycle1 : TDState × List (String × StepResult) :=
  check_for_changes c1_state0
    [("t.json", [("name", Value.vstr "T"), ("midPx", Value.vstr "1")])]

def c1_cycle2 : TDState × List (String × StepResult) :=
  check_for_changes c1_cycle1.1
    [("t.json", [("name", Value.vstr "T"), ("midPx", Value.vnull)])]

def c1_cycle3 : TDState × List (String × StepResult) :=
  check_for_changes c1_cycle2.1
    [("t.json", [("name", Value.vstr "T"), ("midPx", Value.vstr "2")])]

/-- Claim C1 counterexample: after the first cycle emits a
TransitionToTradeable event and sets the flag, a cycle in which `midPx`
reverts to null resets the stored flag to `false`, and the next cycle with
a non-null `midPx` emits a second TransitionToTradeable event for the same
entity — the flag is not monotonic and the transition event is not
one-shot. -/
theorem C1_counterexample :
    (c1_cycle1.2.map fun pr => pr.2.transition_alert) = [some (Value.vstr "1")]
    ∧ c1_cycle1.1.price_transition_states "t.json" = true
    ∧ c1_cycle2.1.price_transition_states "t.json" = false
    ∧ (c1_cycle3.2.map fun pr => pr.2.transition_alert)
        = [some (Value.vstr "2")] := by
  decide

/-- Claim C1 (amended): the stored flag is overwritten every cycle with the
current trading status (`self.price_transition_states[filename] =
is_trading`, line 175), so it reverts to `false` whenever `midPx` goes back
to null; a TransitionToTradeable event is emitted exactly on the cycles
where the stored flag is down and `midPx` is currently non-null, hence once
per null→value edge rather than once ever. -/
theorem C1_flag_tracks_current_status (s : TDState) (f : String) (c : Record) :
    (process_file s f c).1.price_transition_states f = is_trading c
    ∧ ((process_file s f c).2.transition_alert ≠ none ↔
        s.price_transition_states f = false ∧ is_trading c = true) := by
  constructor
  · simp [process_file]
  · by_cases h : s.price_transition_states f = false ∧ is_trading c = true
    · simp [process_file, h]
    · simp [process_file, h]

/-! ### Claim C2 -/

/-- Empty monitor state: no baselines, all flags down. -/
def c2_state : TDState := ⟨fun _ => none, fun _ => false⟩

/-- Claim C2 counterexample: for an entity with no baseline record, the
cycle emits the NewEntity alert but the `changes` dict nevertheless also
collects a per-field added event (`changes[key] = (None, value)`) for each
field of the record, so per-field FieldAdded events are not suppressed. -/
theorem C2_counterexample :
    (process_file c2_state "n.json" [("name", Value.vstr "X")]).2.new_token_alert
      = true
    ∧ (process_file c2_state "n.json" [("name", Value.vstr "X")]).2.changes
        = [⟨"name", Value.vnull, Value.vstr "X"⟩]
    ∧ (process_file c2_state "n.json" [("name", Value.vstr "X")]).2.changes
        ≠ [] := by
  decide

/-- Claim C2 (amended): for an entity with no baseline record (and its flag
down, the default for unseen entities), the cycle emits exactly one
NewEntity alert and additionally one per-field added change event
`(None, value)` for every field of the cleaned record — the new-entity
case does not suppress the per-field events. -/
theorem C2_new_entity_alert_and_per_field (s : TDState) (f : String)
    (c : Record) (hnew : s.previous_states f = none)
    (hflag : s.price_transition_states f = false) :
    (process_file s f c).2.new_token_alert = true
    ∧ (process_file s f c).2.changes
        = (clean c).map fun kv => ⟨kv.1, Value.vnull, kv.2⟩ := by
  constructor
  · simp [process_file, hnew]
  · simp [process_file, hnew, hflag, diff_changes_nil_baseline]

/-- Claim C2 witness: the amended statement at the concrete new entity. -/
theorem C2_witness :
    (process_file c2_state "n.json" [("name", Value.vstr "X")]).2.new_token_alert
      = true
    ∧ (process_file c2_state "n.json" [("name", Value.vstr "X")]).2.changes
        = (clean [("name", Value.vstr "X")]).map
            fun kv => ⟨kv.1, Value.vnull, kv.2⟩ :=
  C2_new_entity_alert_and_per_field c2_state "n.json"
    [("name", Value.vstr "X")] rfl rfl

/-! ### Claim C3 -/

/-- Scenario for claim C3: baseline has `midPx` null, flag down. -/
def c3_state : TDState :=
  ⟨fun f => if f = "x.json" then
      some [("name", Value.vstr "XYZ"), ("midPx", Value.vnull)]
    else none,
   fun _ => false⟩

def c3_current : Record := [("name", Value.vstr "XYZ"), ("midPx", Value.vstr "12.50")]

/-- Claim C3 counterexample: on the activation cycle (baseline `midPx`
null, current `midPx` "12.50", flag down) the TransitionToTradeable alert
fires and the flag flips to true, but the generic changed-field event for
`midPx` is NOT suppressed: the `changes` dict contains the `midPx` entry,
because the `midPx` skip (line 189) tests `was_trading`, the flag value
before this cycle, which is still false. -/
theorem C3_counterexample :
    (process_file c3_state "x.json" c3_current).2.transition_alert
      = some (Value.vstr "12.50")
    ∧ (process_file c3_state "x.json" c3_current).1.price_transition_states
        "x.json" = true
    ∧ (process_file c3_state "x.json" c3_current).2.changes
        = [⟨"midPx", Value.vnull, Value.vstr "12.50"⟩] := by
  decide

/-- Claim C3 (amended): when the baseline has `midPx` null, the current
record has `midPx` non-null and the flag is down, the cycle emits the
TransitionToTradeable alert carrying the new value and sets the flag to
true, but it ALSO emits the generic changed-field event for `midPx` in the
same cycle — the activation is reported twice, not once, since suppression
only applies when the flag was already up before the cycle. -/
theorem C3_transition_also_emits_field_change (s : TDState) (f : String)
    (c prev : Record) (v : Value)
    (hprev : s.previous_states f = some prev)
    (hpmid : alookup prev "midPx" = some Value.vnull)
    (hcmid : alookup c "midPx" = some v) (hv : v ≠ Value.vnull)
    (hflag : s.price_transition_states f = false) :
    (process_file s f c).2.transition_alert = some v
    ∧ (process_file s f c).1.price_transition_states f = true
    ∧ (⟨"midPx", Value.vnull, v⟩ : Change) ∈ (process_file s f c).2.changes := by
  have htr : is_trading c = true := is_trading_of_some hcmid hv
  refine ⟨?_, ?_, ?_⟩
  · simp [process_file, hflag, htr, hcmid]
  · simp [process_file, htr]
  · have hmemc : ("midPx", v) ∈ clean c :=
      mem_of_alookup_some (by rw [alookup_clean (by decide)]; exact hcmid)
    have hgoal : (⟨"midPx", Value.vnull, v⟩ : Change)
        ∈ diff_changes prev (clean c) false := by
      unfold diff_changes
      refine List.mem_append_left _ ?_
      refine List.mem_filterMap.mpr ⟨("midPx", v), hmemc, ?_⟩
      simp [diff_added_changed, hpmid, Ne.symm hv]
    simpa [process_file, hprev, hflag] using hgoal

/-- Claim C3 witness: the amended statement at the concrete activation
scenario. -/
theorem C3_witness :
    (process_file c3_state "x.json" c3_current).2.transition_alert
      = some (Value.vstr "12.50")
    ∧ (process_file c3_state "x.json" c3_current).1.price_transition_states
        "x.json" = true
    ∧ (⟨"midPx", Value.vnull, Value.vstr "12.50"⟩ : Change)
        ∈ (process_file c3_state "x.json" c3_current).2.changes :=
  C3_transition_also_emits_field_change c3_state "x.json" c3_current
    [("name", Value.vstr "XYZ"), ("midPx", Value.vnull)] (Value.vstr "12.50")
    rfl rfl rfl (by decide) rfl

/-! ### Pair-monitor lemmas -/

/-- Characterization of when the per-asset loop body alerts. -/
theorem asset_alert_eq_some {known : List String}
    {fetch : String → Option Record} {a : Asset} {p : String} :
    asset_alert known fetch a = some p ↔
      a.name = p ∧ a.name ∉ known
        ∧ ∃ tid, a.tokenId = some tid ∧ (fetch tid).isSome = true := by
  unfold asset_alert
  by_cases hk : a.name ∈ known
  · simp [hk]
  · cases htid : a.tokenId with
    | none => simp [hk, htid]
    | some tid =>
      cases hf : fetch tid with
      | none => simp [hk, htid, hf]
      | some d =>
        simp only [if_neg hk, hf, Option.map_some']
        constructor
        · intro h
          exact ⟨(Option.some.inj h), hk, tid, rfl, by simp [hf]⟩
        · rintro ⟨hn, -, -⟩
          rw [hn]

/-- Characterization of the alerts of one `check_for_updates` cycle. -/
theorem mem_alerts_iff {known : List String} {assets : List Asset}
    {fetch : String → Option Record} {p : String} :
    p ∈ (check_for_updates known assets fetch).2 ↔
      ∃ a ∈ assets, a.name = p ∧ p ∉ known
        ∧ ∃ tid, a.tokenId = some tid ∧ (fetch tid).isSome = true := by
  unfold check_for_updates
  rw [List.mem_filterMap]
  constructor
  · rintro ⟨a, ha, hfa⟩
    obtain ⟨hn, hk, tid, htid, hf⟩ := asset_alert_eq_some.mp hfa
    exact ⟨a, ha, hn, hn ▸ hk, tid, htid, hf⟩
  · rintro ⟨a, ha, hn, hk, tid, htid, hf⟩
    exact ⟨a, ha, asset_alert_eq_some.mpr ⟨hn, hn ▸ hk, tid, htid, hf⟩⟩

/-- Every alerted name is the name of some snapshot asset. -/
theorem alerts_subset_names {known : List String} {assets : List Asset}
    {fetch : String → Option Record} {p : String}
    (h : p ∈ (check_for_updates known assets fetch).2) :
    p ∈ assets.map Asset.name := by
  obtain ⟨a, ha, hn, -, -⟩ := mem_alerts_iff.mp h
  exact List.mem_map.mpr ⟨a, ha, hn⟩

/-- A pair already in the baseline is never alerted in that cycle. -/
theorem no_alert_of_known {known : List String} {assets : List Asset}
    {fetch : String → Option Record} {p : String} (hk : p ∈ known) :
    p ∉ (check_for_updates known assets fetch).2 := by
  intro h
  obtain ⟨a, -, -, hnk, -⟩ := mem_alerts_iff.mp h
  exact hnk hk

/-- With pairwise distinct asset names, one cycle alerts a given pair at
most once. -/
theorem count_alert_le_one {known : List String}
    {fetch : String → Option Record} {assets : List Asset}
    (hnd : (assets.map Asset.name).Nodup) (p : String) :
    (check_for_updates known assets fetch).2.count p ≤ 1 := by
  induction assets with
  | nil => simp [check_for_updates]
  | cons a rest ih =>
    rw [List.map_cons, List.nodup_cons] at hnd
    show (List.filterMap (asset_alert known fetch) (a :: rest)).count p ≤ 1
    cases hfa : asset_alert known fetch a with
    | none =>
      rw [List.filterMap_cons_none hfa]
      exact ih hnd.2
    | some q =>
      rw [List.filterMap_cons_some hfa, List.count_cons]
      by_cases hqp : q = p
      · have hn : a.name = p := hqp ▸ (asset_alert_eq_some.mp hfa).1
        have hz : (List.filterMap (asset_alert known fetch) rest).count p = 0 := by
          rw [List.count_eq_zero]
          intro hmem
          exact hnd.1 (hn ▸ @alerts_subset_names known rest fetch p hmem)
        simp [hz, hqp]
      · have : (q == p) = false := by simp [hqp]
        rw [this]
        simpa using ih hnd.2

/-! ### Claim C4 -/

def c4_asset_P : Asset := ⟨"P", some "tp"⟩

def c4_fetch : String → Option Record := fun _ => some []

/-- A run in which pair P is listed, disappears from the snapshot, and is
listed again. -/
def c4_run : List String × List (List String) :=
  run_cycles [] [([c4_asset_P], c4_fetch), ([], c4_fetch), ([c4_asset_P], c4_fetch)]

/-- Claim C4 counterexample: `known_pairs` is replaced wholesale by the
fetched snapshot each cycle (line 106), so a pair that disappears from one
snapshot is forgotten, and when it reappears it is treated as new again:
the run emits two new-pair alerts for the same pair name P. -/
theorem C4_counterexample :
    c4_run.2 = [["P"], [], ["P"]]
    ∧ (c4_run.2.map fun al => al.count "P").sum = 2
    ∧ ¬ (c4_run.2.map fun al => al.count "P").sum ≤ 1 := by
  decide

/-- Claim C4 (amended): duplicate alerts are excluded only while a pair
stays continuously listed: a pair in the baseline that appears in every
subsequent snapshot is never alerted again, and within one cycle a pair is
alerted at most once when asset names are distinct; but since the baseline
is replaced by the snapshot each cycle, a pair that disappears from a
snapshot and later reappears can be alerted a second time. -/
theorem C4_alert_at_most_once_while_listed (known : List String)
    (cycles : List (List Asset × (String → Option Record))) (p : String)
    (assets : List Asset) (fetch : String → Option Record)
    (hknown : p ∈ known)
    (hpresent : ∀ cyc ∈ cycles, p ∈ cyc.1.map Asset.name)
    (hnd : (assets.map Asset.name).Nodup) :
    (∀ al ∈ (run_cycles known cycles).2, p ∉ al)
    ∧ (check_for_updates known assets fetch).2.count p ≤ 1 := by
  refine ⟨?_, count_alert_le_one hnd p⟩
  induction cycles generalizing known with
  | nil => simp [run_cycles]
  | cons cyc rest ih =>
    intro al hal
    simp only [run_cycles] at hal
    rcases List.mem_cons.mp hal with h1 | h2
    · subst h1
      exact no_alert_of_known hknown
    · refine ih _ (hpresent cyc (List.mem_cons_self _ _))
        (fun c hc => hpresent c (List.mem_cons.mpr (Or.inr hc))) al h2

/-- Claim C4 witness: the amended statement at a concrete state where P is
known and stays listed for one further cycle. -/
theorem C4_witness :
    (∀ al ∈ (run_cycles ["P"] [([c4_asset_P], c4_fetch)]).2, "P" ∉ al)
    ∧ (check_for_updates ["P"] [c4_asset_P] c4_fetch).2.count "P" ≤ 1 :=
  C4_alert_at_most_once_while_listed ["P"] [([c4_asset_P], c4_fetch)] "P"
    [c4_asset_P] c4_fetch (by decide)
    (fun cyc hcyc => by
      rcases List.mem_cons.mp hcyc with h | h
      · subst h; decide
      · cases h)
    (by decide)

/-! ### Claim C5 -/

def c5_assets : List Asset := [⟨"Q", some "tq"⟩]

def c5_fetch_fails : String → Option Record := fun _ => none

/-- Claim C5 counterexample: pair Q is in the snapshot and absent from the
(empty) baseline, but because its token-details fetch fails
(`fetch_token_details` returns `None`, lines 70-72), no new-pair
notification fires, while the baseline is still updated to contain Q — the
appearance transition is missed, and Q will never be alerted as long as it
stays listed. -/
theorem C5_counterexample :
    (check_for_updates [] c5_assets c5_fetch_fails).2 = []
    ∧ "Q" ∈ (check_for_updates [] c5_assets c5_fetch_fails).1 := by
  decide

/-- Claim C5 (amended): a pair absent from the baseline is notified in the
cycle iff some snapshot asset with that name carries a tokenId whose
details fetch succeeds; the baseline is unconditionally replaced by the
snapshot's names, so a new pair whose fetch fails (or whose asset has no
tokenId) enters the baseline silently and its appearance transition is
permanently missed. -/
theorem C5_alert_iff_fetch_succeeds (known : List String)
    (assets : List Asset) (fetch : String → Option Record) (p : String)
    (hnk : p ∉ known) :
    (p ∈ (check_for_updates known assets fetch).2 ↔
      ∃ a ∈ assets, a.name = p
        ∧ ∃ tid, a.tokenId = some tid ∧ (fetch tid).isSome = true)
    ∧ (check_for_updates known assets fetch).1 = assets.map Asset.name := by
  refine ⟨?_, rfl⟩
  rw [mem_alerts_iff]
  constructor
  · rintro ⟨a, ha, hn, -, h⟩
    exact ⟨a, ha, hn, h⟩
  · rintro ⟨a, ha, hn, h⟩
    exact ⟨a, ha, hn, hnk, h⟩

/-- Claim C5 witness: the amended statement at the concrete failing-fetch
cycle. -/
theorem C5_witness :
    ("Q" ∈ (check_for_updates [] c5_assets c5_fetch_fails).2 ↔
      ∃ a ∈ c5_assets, a.name = "Q"
        ∧ ∃ tid, a.tokenId = some tid ∧ (c5_fetch_fails tid).isSome = true)
    ∧ (check_for_updates [] c5_assets c5_fetch_fails).1
        = c5_assets.map Asset.name :=
  C5_alert_iff_fetch_succeeds [] c5_assets c5_fetch_fails "Q" (by decide)

/-! ### Claim C6 -/

/-- Scenario for claim C6: flag already up, baseline holds only
`midPx: "12.50"`. -/
def c6_state : TDState :=
  ⟨fun f => if f = "m.json" then some [("midPx", Value.vstr "12.50")] else none,
   fun f => decide (f = "m.json")⟩

/-- Claim C6 counterexample: with the flag already true, removing `midPx`
alone (current record empty) is NOT pure noise: the removal pass (lines
197-199) has no `midPx` exemption, so the cycle emits one removed-field
change event `("midPx", ("12.50", None))` even though the difference is
confined to the signal field. -/
theorem C6_counterexample :
    (process_file c6_state "m.json" ([] : Record)).2.transition_alert = none
    ∧ (process_file c6_state "m.json" ([] : Record)).2.changes
        = [⟨"midPx", Value.vstr "12.50", Value.vnull⟩]
    ∧ (process_file c6_state "m.json" ([] : Record)).2.changes ≠ [] := by
  decide

/-- Claim C6 (amended): with the flag already true, a difference confined
to `midPx` produces no transition event and no change events as long as
`midPx` is still present in the cleaned current record (value changed or
newly added); but if `midPx` is removed, the removal pass emits exactly
one removed-field event carrying the old value — signal-field suppression
covers changes and additions, not removals. -/
theorem C6_signal_noise_suppressed_except_removal (s : TDState) (f : String)
    (c prev : Record)
    (hprev : s.previous_states f = some prev)
    (hflag : s.price_transition_states f = true)
    (hndp : (prev.map Prod.fst).Nodup) (hndc : (c.map Prod.fst).Nodup)
    (hagree : ∀ k, k ≠ "midPx" → alookup prev k = alookup (clean c) k) :
    (process_file s f c).2.transition_alert = none
    ∧ ((alookup (clean c) "midPx").isSome = true →
        (process_file s f c).2.changes = [])
    ∧ (∀ v, alookup prev "midPx" = some v →
        alookup (clean c) "midPx" = none →
        (process_file s f c).2.changes = [⟨"midPx", v, Value.vnull⟩]) := by
  have hcc : ((clean c).map Prod.fst).Nodup := clean_keys_nodup hndc
  have hchs : (process_file s f c).2.changes
      = diff_changes prev (clean c) true := by
    simp [process_file, hprev, hflag]
  refine ⟨by simp [process_file, hflag], ?_, ?_⟩
  · intro hsome
    rw [hchs]
    unfold diff_changes
    rw [List.append_eq_nil]
    constructor
    · rw [List.filterMap_eq_nil_iff]
      intro kv hkv
      by_cases hmid : kv.1 = "midPx"
      · simp [diff_added_changed, hmid]
      · have h1 : alookup prev kv.1 = some kv.2 := by
          rw [hagree kv.1 hmid]
          exact alookup_of_mem_nodup hcc hkv
        simp [diff_added_changed, hmid, h1]
    · rw [List.filterMap_eq_nil_iff]
      intro kv hkv
      by_cases hmid : kv.1 = "midPx"
      · obtain ⟨d, hd⟩ := Option.isSome_iff_exists.mp hsome
        simp [diff_removed, hmid, hd]
      · have h1 : alookup (clean c) kv.1 = alookup prev kv.1 :=
          (hagree kv.1 hmid).symm
        obtain ⟨d, hd⟩ :=
          Option.isSome_iff_exists.mp (alookup_isSome_of_mem hkv)
        rw [hd] at h1
        simp [diff_removed, h1]
  · intro v hpv hnone
    rw [hchs]
    unfold diff_changes
    have hA : (clean c).filterMap (diff_added_changed prev true) = [] := by
      rw [List.filterMap_eq_nil_iff]
      intro kv hkv
      by_cases hmid : kv.1 = "midPx"
      · simp [diff_added_changed, hmid]
      · have h1 : alookup prev kv.1 = some kv.2 := by
          rw [hagree kv.1 hmid]
          exact alookup_of_mem_nodup hcc hkv
        simp [diff_added_changed, hmid, h1]
    have hB : prev.filterMap (diff_removed (clean c))
        = [⟨"midPx", v, Value.vnull⟩] := by
      refine filterMap_record_singleton hndp (mem_of_alookup_some hpv)
        (by simp [diff_removed, hnone]) ?_
      intro kv hkv hne
      have h1 : alookup (clean c) kv.1 = alookup prev kv.1 :=
        (hagree kv.1 hne).symm
      obtain ⟨d, hd⟩ :=
        Option.isSome_iff_exists.mp (alookup_isSome_of_mem hkv)
      rw [hd] at h1
      simp [diff_removed, h1]
    rw [hA, hB, List.nil_append]

/-- Claim C6 witness: the amended statement at the concrete removal
scenario. -/
theorem C6_witness :
    (process_file c6_state "m.json" ([] : Record)).2.transition_alert = none
    ∧ ((alookup (clean ([] : Record)) "midPx").isSome = true →
        (process_file c6_state "m.json" ([] : Record)).2.changes = [])
    ∧ (∀ v, alookup [("midPx", Value.vstr "12.50")] "midPx" = some v →
        alookup (clean ([] : Record)) "midPx" = none →
        (process_file c6_state "m.json" ([] : Record)).2.changes
          = [⟨"midPx", v, Value.vnull⟩]) :=
  C6_signal_noise_suppressed_except_removal c6_state "m.json" []
    [("midPx", Value.vstr "12.50")] rfl (by decide) (by decide) (by decide)
    (by
      intro k hk
      simp [alookup, clean, Ne.symm hk])

/-! ### Claim C7 -/

/-- Claim C7 counterexample: the cleaned records
`{"midPx": "12.50"}` and `{"midPx": "13.00"}` differ in exactly the one
field `midPx` (their only field, with distinct values), yet with the flag
up the diff produces zero events instead of exactly one, because the first
pass skips `midPx` when `was_trading` is true. -/
theorem C7_counterexample :
    diff_changes [("midPx", Value.vstr "12.50")]
      [("midPx", Value.vstr "13.00")] true = []
    ∧ alookup [("midPx", Value.vstr "12.50")] "midPx"
        = some (Value.vstr "12.50")
    ∧ alookup [("midPx", Value.vstr "13.00")] "midPx"
        = some (Value.vstr "13.00")
    ∧ Value.vstr "12.50" ≠ Value.vstr "13.00" := by
  decide

/-- Claim C7 (amended): for two cleaned records with distinct keys that
differ in exactly one field, the diff produces exactly the one event
describing that field — provided the differing field is not a `midPx`
addition or value change while the flag is up (in which case the first
pass skips it and zero events result).  In particular removals, such as
`deployTime` disappearing, always yield exactly one removed-field event
carrying the old value, since the removal pass is unconditional. -/
theorem C7_single_difference_single_event (prev cur : Record) (w : Bool)
    (k0 : String)
    (hndp : (prev.map Prod.fst).Nodup) (hndc : (cur.map Prod.fst).Nodup)
    (hdiff : alookup prev k0 ≠ alookup cur k0)
    (hrest : ∀ k, k ≠ k0 → alookup prev k = alookup cur k)
    (hex : w = false ∨ k0 ≠ "midPx" ∨ alookup cur k0 = none) :
    diff_changes prev cur w
      = [⟨k0, (alookup prev k0).getD Value.vnull,
           (alookup cur k0).getD Value.vnull⟩] := by
  unfold diff_changes
  cases hc : alookup cur k0 with
  | some v =>
    have hmem : (k0, v) ∈ cur := mem_of_alookup_some hc
    have hskip : ¬ (k0 = "midPx" ∧ w = true) := by
      rcases hex with h | h | h
      · simp [h]
      · simp [h]
      · rw [h] at hc; simp at hc
    have hx : diff_added_changed prev w (k0, v)
        = some ⟨k0, (alookup prev k0).getD Value.vnull, v⟩ := by
      cases hp : alookup prev k0 with
      | none => simp [diff_added_changed, hskip, hp]
      | some old =>
        have hne : old ≠ v := by
          intro he
          rw [hp, hc, he] at hdiff
          exact hdiff rfl
        simp [diff_added_changed, hskip, hp, hne]
    have hA : cur.filterMap (diff_added_changed prev w)
        = [⟨k0, (alookup prev k0).getD Value.vnull, v⟩] := by
      refine filterMap_record_singleton hndc hmem hx ?_
      intro kv hkv hne
      by_cases hmid : kv.1 = "midPx" ∧ w = true
      · simp [diff_added_changed, hmid]
      · have h1 : alookup prev kv.1 = some kv.2 := by
          rw [hrest kv.1 hne]
          exact alookup_of_mem_nodup hndc hkv
        simp [diff_added_changed, hmid, h1]
    have hB : prev.filterMap (diff_removed cur) = [] := by
      rw [List.filterMap_eq_nil_iff]
      intro kv hkv
      by_cases hne : kv.1 = k0
      · simp [diff_removed, hne, hc]
      · have h1 : alookup cur kv.1 = alookup prev kv.1 :=
          (hrest kv.1 hne).symm
        obtain ⟨d, hd⟩ :=
          Option.isSome_iff_exists.mp (alookup_isSome_of_mem hkv)
        rw [hd] at h1
        simp [diff_removed, h1]
    rw [hA, hB, List.append_nil]
    rfl
  | none =>
    cases hp : alookup prev k0 with
    | none =>
      rw [hp, hc] at hdiff
      exact absurd rfl hdiff
    | some old =>
      have hmem : (k0, old) ∈ prev := mem_of_alookup_some hp
      have hA : cur.filterMap (diff_added_changed prev w) = [] := by
        rw [List.filterMap_eq_nil_iff]
        intro kv hkv
        have hne : kv.1 ≠ k0 := key_ne_of_alookup_none hc hkv
        by_cases hmid : kv.1 = "midPx" ∧ w = true
        · simp [diff_added_changed, hmid]
        · have h1 : alookup prev kv.1 = some kv.2 := by
            rw [hrest kv.1 hne]
            exact alookup_of_mem_nodup hndc hkv
          simp [diff_added_changed, hmid, h1]
      have hB : prev.filterMap (diff_removed cur)
          = [⟨k0, old, Value.vnull⟩] := by
        refine filterMap_record_singleton hndp hmem
          (by simp [diff_removed, hc]) ?_
        intro kv hkv hne
        have h1 : alookup cur kv.1 = alookup prev kv.1 :=
          (hrest kv.1 hne).symm
        obtain ⟨d, hd⟩ :=
          Option.isSome_iff_exists.mp (alookup_isSome_of_mem hkv)
        rw [hd] at h1
        simp [diff_removed, h1]
      rw [hA, hB, List.nil_append]
      rfl

/-- Claim C7 witness: the amended statement at the spec's removal
scenario — baseline with `totalSupply` and `deployTime`, current with the
`deployTime` field removed — yielding exactly one removed-field event. -/
theorem C7_witness :
    diff_changes
      [("totalSupply", Value.vstr "1000"),
       ("deployTime", Value.vstr "2024-01-01T00:00:00Z")]
      [("totalSupply", Value.vstr "1000")] false
    = [⟨"deployTime",
        (alookup [("totalSupply", Value.vstr "1000"),
          ("deployTime", Value.vstr "2024-01-01T00:00:00Z")]
          "deployTime").getD Value.vnull,
        (alookup [("totalSupply", Value.vstr "1000")]
          "deployTime").getD Value.vnull⟩] :=
  C7_single_difference_single_event
    [("totalSupply", Value.vstr "1000"),
     ("deployTime", Value.vstr "2024-01-01T00:00:00Z")]
    [("totalSupply", Value.vstr "1000")] false "deployTime"
    (by decide) (by decide) (by decide)
    (by
      intro k hk
      by_cases h1 : "totalSupply" = k
      · simp [alookup, h1]
      · simp [alookup, h1, Ne.symm hk])
    (Or.inl rfl)

/-! ### Claim C8 -/

/-- Claim C8: when the stored baseline equals the cleaned current record
and the stored flag agrees with the current trading status (which holds in
every reachable state, since each cycle stores exactly `clean current` and
`is_trading current`, and `load_initial_states` does the same), the cycle
emits no new-token alert, no transition alert and no change events, and
leaves the whole state unchanged. -/
theorem C8_identical_record_no_events (s : TDState) (f : String) (c : Record)
    (hnd : (c.map Prod.fst).Nodup)
    (hprev : s.previous_states f = some (clean c))
    (hflag : s.price_transition_states f = is_trading c) :
    (process_file s f c).2.new_token_alert = false
    ∧ (process_file s f c).2.transition_alert = none
    ∧ (process_file s f c).2.changes = []
    ∧ (process_file s f c).1.previous_states = s.previous_states
    ∧ (process_file s f c).1.price_transition_states
        = s.price_transition_states := by
  refine ⟨?_, ?_, ?_, ?_, ?_⟩
  · simp [process_file, hprev]
  · have hno : ¬ (s.price_transition_states f = false ∧ is_trading c = true) := by
      rw [hflag]
      rintro ⟨h1, h2⟩
      rw [h1] at h2
      exact Bool.false_ne_true h2
    simp [process_file, hno]
  · simp [process_file, hprev, diff_changes_self (clean_keys_nodup hnd)]
  · show Function.update s.previous_states f (some (clean c))
        = s.previous_states
    rw [← hprev, Function.update_eq_self]
  · show Function.update s.price_transition_states f (is_trading c)
        = s.price_transition_states
    rw [← hflag, Function.update_eq_self]

/-- State for the C8 witness: baseline for `a.json` equal to the cleaned
current record, flag agreeing with its (null) `midPx`. -/
def c8_state : TDState :=
  ⟨fun g => if g = "a.json" then
      some [("name", Value.vstr "A"), ("midPx", Value.vnull)]
    else none,
   fun _ => false⟩

def c8_current : Record := [("name", Value.vstr "A"), ("midPx", Value.vnull)]

/-- Claim C8 witness: the statement at the concrete unchanged record. -/
theorem C8_witness :
    (process_file c8_state "a.json" c8_current).2.new_token_alert = false
    ∧ (process_file c8_state "a.json" c8_current).2.transition_alert = none
    ∧ (process_file c8_state "a.json" c8_current).2.changes = []
    ∧ (process_file c8_state "a.json" c8_current).1.previous_states
        = c8_state.previous_states
    ∧ (process_file c8_state "a.json" c8_current).1.price_transition_states
        = c8_state.price_transition_states :=
  C8_identical_record_no_events c8_state "a.json" c8_current
    (by decide) (by decide) (by decide)

/-! ### Claim C9 -/

/-- A first-pass event names the key of the current-record entry it came
from. -/
theorem field_eq_of_added_changed {prev : Record} {w : Bool}
    {kv : String × Value} {e : Change}
    (hf : diff_added_changed prev w kv = some e) : e.field = kv.1 := by
  unfold diff_added_changed at hf
  split at hf
  · exact Option.noConfusion hf
  · split at hf
    · injection hf with h
      rw [← h]
    · split at hf
      · exact Option.noConfusion hf
      · injection hf with h
        rw [← h]

/-- A removal-pass event names the key of the baseline entry it came
from. -/
theorem field_eq_of_removed {cur : Record} {kv : String × Value} {e : Change}
    (hf : diff_removed cur kv = some e) : e.field = kv.1 := by
  unfold diff_removed at hf
  split at hf
  · exact Option.noConfusion hf
  · injection hf with h
    rw [← h]

/-- Claim C9: as long as the stored baseline is a cleaned record (which
every write to `previous_states` guarantees), no emitted change event ever
names an ignored field (`markPx`, `prevDayPx`), no matter how those fields
change; and the transition signal is insensitive to ignored fields: any
two current records agreeing on all non-ignored fields have the same
trading status. -/
theorem C9_ignored_fields_never_emitted (s : TDState) (f : String)
    (c : Record)
    (hclean : ∀ kv ∈ (s.previous_states f).getD [], kv.1 ∉ ignored_fields) :
    (∀ e ∈ (process_file s f c).2.changes, e.field ∉ ignored_fields)
    ∧ (∀ c' : Record, (∀ k, k ∉ ignored_fields → alookup c' k = alookup c k) →
        is_trading c' = is_trading c) := by
  constructor
  · intro e he
    have hch : (process_file s f c).2.changes
        = diff_changes ((s.previous_states f).getD []) (clean c)
            (s.price_transition_states f) := rfl
    rw [hch] at he
    unfold diff_changes at he
    rcases List.mem_append.mp he with h1 | h2
    · obtain ⟨kv, hkv, hf⟩ := List.mem_filterMap.mp h1
      rw [field_eq_of_added_changed hf]
      exact key_not_ignored_of_mem_clean hkv
    · obtain ⟨kv, hkv, hf⟩ := List.mem_filterMap.mp h2
      rw [field_eq_of_removed hf]
      exact hclean kv hkv
  · intro c' hagree
    unfold is_trading
    rw [hagree "midPx" (by decide)]

/-- State for the C9 witness: a cleaned baseline for `i.json`. -/
def c9_state : TDState :=
  ⟨fun g => if g = "i.json" then
      some [("name", Value.vstr "I"), ("midPx", Value.vnull)]
    else none,
   fun _ => false⟩

/-- Current record for the C9 witness: `markPx` and `prevDayPx` both newly
present with values — a maximal ignored-field perturbation. -/
def c9_current : Record :=
  [("name", Value.vstr "I"), ("midPx", Value.vnull),
   ("markPx", Value.vstr "3.14"), ("prevDayPx", Value.vstr "2.71")]

/-- Claim C9 witness: the statement at a concrete cycle in which both
ignored fields change. -/
theorem C9_witness :
    (∀ e ∈ (process_file c9_state "i.json" c9_current).2.changes,
      e.field ∉ ignored_fields)
    ∧ (∀ c' : Record,
        (∀ k, k ∉ ignored_fields → alookup c' k = alookup c9_current k) →
        is_trading c' = is_trading c9_current) :=
  C9_ignored_fields_never_emitted c9_state "i.json" c9_current (by decide)

/-! ### Claim C10 -/

/-- Processing one file only touches the state entries of that filename. -/
theorem process_file_frame {s : TDState} {g f : String} {c : Record}
    (h : g ≠ f) :
    (process_file s g c).1.previous_states f = s.previous_states f
    ∧ (process_file s g c).1.price_transition_states f
        = s.price_transition_states f := by
  constructor <;> simp [process_file, Function.update_noteq (Ne.symm h)]

/-- A whole cycle leaves the state entries of filenames it does not visit
unchanged. -/
theorem check_for_changes_frame {files : List (String × Record)}
    {s : TDState} {f : String} (h : ∀ fc ∈ files, fc.1 ≠ f) :
    (check_for_changes s files).1.previous_states f = s.previous_states f
    ∧ (check_for_changes s files).1.price_transition_states f
        = s.price_transition_states f := by
  induction files generalizing s with
  | nil => exact ⟨rfl, rfl⟩
  | cons fc rest ih =>
    have h1 := @process_file_frame s fc.1 f fc.2
      (h fc (List.mem_cons_self _ _))
    have h2 := @ih (process_file s fc.1 fc.2).1
      (fun x hx => h x (List.mem_cons.mpr (Or.inr hx)))
    exact ⟨h2.1.trans h1.1, h2.2.trans h1.2⟩

/-- Every per-file result of a cycle is labelled with a visited
filename. -/
theorem check_for_changes_result_names {files : List (String × Record)}
    {s : TDState} {pr : String × StepResult}
    (h : pr ∈ (check_for_changes s files).2) :
    pr.1 ∈ files.map Prod.fst := by
  induction files generalizing s with
  | nil => simp [check_for_changes] at h
  | cons fc rest ih =>
    simp only [check_for_changes] at h
    rcases List.mem_cons.mp h with h1 | h2
    · rw [h1]
      exact List.mem_map.mpr ⟨fc, List.mem_cons_self _ _, rfl⟩
    · obtain ⟨a, ha, he⟩ := List.mem_map.mp (ih h2)
      exact List.mem_map.mpr ⟨a, List.mem_cons.mpr (Or.inr ha), he⟩

/-- Claim C10: a file recorded in `previous_states` but absent from the
monitored directory is simply not visited by the cycle's
`os.listdir` loop: no events are produced for it and both its
`previous_states` and `price_transition_states` entries are untouched;
when the file later reappears, it is not treated as new and is diffed
against the retained stale baseline with the retained flag. -/
theorem C10_absent_file_untouched (s : TDState)
    (files : List (String × Record)) (f : String) (R c : Record)
    (habsent : f ∉ files.map Prod.fst)
    (hR : s.previous_states f = some R) :
    (check_for_changes s files).1.previous_states f = s.previous_states f
    ∧ (check_for_changes s files).1.price_transition_states f
        = s.price_transition_states f
    ∧ (∀ pr ∈ (check_for_changes s files).2, pr.1 ≠ f)
    ∧ (process_file (check_for_changes s files).1 f c).2.new_token_alert
        = false
    ∧ (process_file (check_for_changes s files).1 f c).2.changes
        = diff_changes R (clean c) (s.price_transition_states f) := by
  have hne : ∀ fc ∈ files, fc.1 ≠ f := by
    intro fc hfc he
    exact habsent (he ▸ List.mem_map.mpr ⟨fc, hfc, rfl⟩)
  obtain ⟨hp, ht⟩ := check_for_changes_frame hne
  refine ⟨hp, ht, ?_, ?_, ?_⟩
  · intro pr hpr he
    exact habsent (he ▸ check_for_changes_result_names hpr)
  · simp [process_file, hp, hR]
  · simp [process_file, hp, ht, hR]

/-- State for the C10 witness: a baseline recorded for `gone.json`. -/
def c10_state : TDState :=
  ⟨fun g => if g = "gone.json" then some [("name", Value.vstr "G")] else none,
   fun _ => false⟩

def c10_files : List (String × Record) :=
  [("other.json", [("name", Value.vstr "O")])]

def c10_reappeared : Record := [("name", Value.vstr "G"), ("midPx", Value.vstr "5")]

/-- Claim C10 witness: the statement at a concrete cycle that visits only
another file. -/
theorem C10_witness :
    (check_for_changes c10_state c10_files).1.previous_states "gone.json"
        = c10_state.previous_states "gone.json"
    ∧ (check_for_changes c10_state c10_files).1.price_transition_states
        "gone.json" = c10_state.price_transition_states "gone.json"
    ∧ (∀ pr ∈ (check_for_changes c10_state c10_files).2, pr.1 ≠ "gone.json")
    ∧ (process_file (check_for_changes c10_state c10_files).1 "gone.json"
        c10_reappeared).2.new_token_alert = false
    ∧ (process_file (check_for_changes c10_state c10_files).1 "gone.json"
        c10_reappeared).2.changes
        = diff_changes [("name", Value.vstr "G")] (clean c10_reappeared)
            (c10_state.price_transition_states "gone.json") :=
  C10_absent_file_untouched c10_state c10_files "gone.json"
    [("name", Value.vstr "G")] c10_reappeared (by decide) (by decide)

end HLSpec
